import Mathlib

/-!
Verification of the GPS Data Processor pipeline (readCSV / groupByID /
processGroups / filterRecords from the Go source, plus the haversine
distance function) against its natural-language specification.

Modelling conventions: Go float64 values (coordinates, seconds, speeds)
are modelled exactly as rationals for the structural pipeline claims and
as real numbers for the trigonometric distance function; Go time.Time is
modelled as a rational number of seconds since the zero instant, so that
t2.Sub(t1).Seconds() becomes subtraction and the zero value of time.Time
becomes 0.  The haversine.Distance callee is kept abstract (a function
parameter `dist`) in the pipeline, because the pipeline claims do not
depend on its values and its source is not part of the repository.
-/

namespace GPS

/-- Mirror of the Go struct `Record` (a single GPS data point together
with the fields derived by `processGroups`). -/
structure Record where
  id : String
  latitude : ℚ
  longitude : ℚ
  timestamp : ℚ
  originalRow : ℤ
  timeDiff : ℚ
  distance : ℚ
  speed : ℚ
  previousRow : ℤ
  prevLatitude : ℚ
  prevLongitude : ℚ
  prevTimestamp : ℚ
  deriving DecidableEq

/-- One successfully parsed CSV data row (the four values that `readCSV`
extracts from a row after `strconv.ParseFloat` / `time.Parse` succeed). -/
structure RawRow where
  id : String
  latitude : ℚ
  longitude : ℚ
  timestamp : ℚ
  deriving DecidableEq

/-- The type of the distance callee `haversine.Distance`
(lat1 lon1 lat2 lon2 ↦ kilometres), kept as a parameter. -/
abbrev Dist := ℚ → ℚ → ℚ → ℚ → ℚ

/-- The row-reading loop of `readCSV`: `rowNumber` starts at 1 (the
header row) and is incremented before each data row is stored, so the
record built from a row carries the file row number of that row. -/
def readCSVLoop : ℤ → List RawRow → List Record
  | _, [] => []
  | rowNumber, row :: rest =>
    { id := row.id, latitude := row.latitude, longitude := row.longitude,
      timestamp := row.timestamp, originalRow := rowNumber + 1,
      timeDiff := 0, distance := 0, speed := 0, previousRow := 0,
      prevLatitude := 0, prevLongitude := 0, prevTimestamp := 0 }
      :: readCSVLoop (rowNumber + 1) rest

/-- Mirror of `readCSV` restricted to its record-building loop (file
opening, header matching and per-field parsing are I/O and are outside
the model; the loop starts with `rowNumber := 1`). -/
def readCSV (rows : List RawRow) : List Record :=
  readCSVLoop 1 rows

/-- The list of original row numbers carried by a list of records. -/
def originalRows (l : List Record) : List ℤ :=
  l.map (fun r => r.originalRow)

/-- One step of `groupByID`: `groups[record.ID] = append(groups[record.ID], record)`
on an association list holding the map's contents. -/
def addToGroups : List (String × List Record) → Record → List (String × List Record)
  | [], r => [(r.id, [r])]
  | (k, g) :: rest, r =>
    if k = r.id then (k, g ++ [r]) :: rest else (k, g) :: addToGroups rest r

/-- Mirror of `groupByID`: the contents of the Go map, as an association
list keyed in first-occurrence order.  (Go defines the map's contents
deterministically; only the iteration order over its keys is not
deterministic, which is modelled by letting `processGroups` take the
group list in an arbitrary order.) -/
def groupByID (records : List Record) : List (String × List Record) :=
  records.foldl addToGroups []

/-- The comparison used to sort a group: `sort.Slice` with
`group[i].Timestamp.Before(group[j].Timestamp)`.  The embedding uses the
stable insertion sort on the reflexive closure of that comparison; the
Go call `sort.Slice` only guarantees a sorted permutation (it is
documented as not stable), which claim C3 addresses. -/
def sortByTimestamp (group : List Record) : List Record :=
  group.insertionSort (fun a b => a.timestamp ≤ b.timestamp)

/-- Index-0 branch of the `processGroups` loop: derived numeric fields
and the predecessor sentinel are zeroed; `PrevTimestamp` is left at
whatever value the record already holds (the Go code leaves the zero
value in place). -/
def deriveFirst (r : Record) : Record :=
  { r with timeDiff := 0, distance := 0, speed := 0, previousRow := 0,
           prevLatitude := 0, prevLongitude := 0 }

/-- Index `i > 0` branch of the `processGroups` loop, reading the
predecessor record `prev` (= `group[i-1]`) and the current record
`cur` (= `group[i]`). -/
def deriveStep (dist : Dist) (prev cur : Record) : Record :=
  let timeDiff := cur.timestamp - prev.timestamp
  let d := dist prev.latitude prev.longitude cur.latitude cur.longitude
  { cur with
      timeDiff := timeDiff,
      distance := d,
      previousRow := prev.originalRow,
      speed := if 0 < timeDiff then d / (timeDiff / 3600) else 0,
      prevLatitude := prev.latitude,
      prevLongitude := prev.longitude,
      prevTimestamp := prev.timestamp }

/-- The tail of the derivation loop: each iteration reads the (already
updated) predecessor slot `group[i-1]`, which `deriveRest` threads
through as `prev`. -/
def deriveRest (dist : Dist) : Record → List Record → List Record
  | _, [] => []
  | prev, cur :: rest =>
    deriveStep dist prev cur :: deriveRest dist (deriveStep dist prev cur) rest

/-- The derivation loop of `processGroups` applied to one already sorted
group. -/
def processGroupSorted (dist : Dist) : List Record → List Record
  | [] => []
  | first :: rest =>
    deriveFirst first :: deriveRest dist (deriveFirst first) rest

/-- One group's processing inside `processGroups`: sort by timestamp,
then walk the group deriving kinematic fields. -/
def processGroup (dist : Dist) (group : List Record) : List Record :=
  processGroupSorted dist (sortByTimestamp group)

/-- Mirror of `processGroups`: process the groups in the order given and
append each group's output to `processedRecords`. -/
def processGroups (dist : Dist) (groups : List (String × List Record)) : List Record :=
  groups.foldl (fun acc g => acc ++ processGroup dist g.2) []

/-- One iteration of the `filterRecords` loop. -/
def filterStep (filterAboveKph : ℚ) (acc : List Record) (r : Record) : List Record :=
  if r.previousRow ≠ 0 then
    (if filterAboveKph ≤ r.speed then acc ++ [r] else acc)
  else acc

/-- Mirror of `filterRecords`: keep records with `PreviousRow != 0`
whose `Speed >= filterAboveKph`, in input order. -/
def filterRecords (records : List Record) (filterAboveKph : ℚ) : List Record :=
  records.foldl (filterStep filterAboveKph) []

/-- The predicate `filterRecords` keeps: a non-zero predecessor
reference and speed at least the threshold. -/
def keepB (filterAboveKph : ℚ) (r : Record) : Bool :=
  decide (r.previousRow ≠ 0) && decide (filterAboveKph ≤ r.speed)

/-- Records that are not group-initial (predecessor sentinel not 0). -/
def hasPredB (r : Record) : Bool :=
  decide (r.previousRow ≠ 0)

/-- The projection of a record that the derivation loop never writes:
identifier, coordinates, timestamp and original row. -/
def core (r : Record) : String × ℚ × ℚ × ℚ × ℤ :=
  (r.id, r.latitude, r.longitude, r.timestamp, r.originalRow)

/-- Nondecreasing-timestamp check: the postcondition that
`sort.Slice(group, less)` guarantees for its output (together with being
a permutation of the input). -/
def sortedByTs : List Record → Bool
  | [] => true
  | [_] => true
  | a :: b :: l => decide (a.timestamp ≤ b.timestamp) && sortedByTs (b :: l)

/-- Two-argument arctangent, as used by the spec's haversine formula
(`math.Atan2` convention: `atan2 y x` is the angle of the point
`(x, y)`). -/
noncomputable def atan2 (y x : ℝ) : ℝ :=
  if 0 < x then Real.arctan (y / x)
  else if x < 0 then
    (if 0 ≤ y then Real.arctan (y / x) + Real.pi else Real.arctan (y / x) - Real.pi)
  else if 0 < y then Real.pi / 2
  else if y < 0 then -(Real.pi / 2)
  else 0

/-- Modelled from the spec: the haversine intermediate
`a = sin²(Δφ/2) + cos(φ1)·cos(φ2)·sin²(Δλ/2)` of §4.1, with degrees
converted to radians; the repository imports `gps-processor/haversine`
but that package's source file is not among the repository sources. -/
noncomputable def hav_a (lat1 lon1 lat2 lon2 : ℝ) : ℝ :=
  Real.sin ((lat2 - lat1) * (Real.pi / 180) / 2) ^ 2 +
    Real.cos (lat1 * (Real.pi / 180)) * Real.cos (lat2 * (Real.pi / 180)) *
      Real.sin ((lon2 - lon1) * (Real.pi / 180) / 2) ^ 2

/-- Modelled from the spec: `haversine.Distance`, §4.1 —
`distance = 2·R·atan2(√a, √(1-a))` with mean Earth radius `R = 6371` km;
the package's source file is not among the repository sources, and
float64 arithmetic is modelled by exact real arithmetic. -/
noncomputable def haversineDistance (lat1 lon1 lat2 lon2 : ℝ) : ℝ :=
  2 * 6371 * atan2 (Real.sqrt (hav_a lat1 lon1 lat2 lon2))
    (Real.sqrt (1 - hav_a lat1 lon1 lat2 lon2))

/-! Concrete inputs used by witnesses and counterexamples. -/

/-- A constant distance function (7 km between any two points), used to
instantiate the abstract `dist` parameter on concrete inputs. -/
def dist0 : Dist := fun _ _ _ _ => 7

/-- First data row of the two-row witness input. -/
def wraw1 : RawRow := { id := "A", latitude := 1, longitude := 2, timestamp := 10 }

/-- Second data row of the two-row witness input. -/
def wraw2 : RawRow := { id := "A", latitude := 3, longitude := 4, timestamp := 25 }

/-- A two-row single-device witness input. -/
def wrows : List RawRow := [wraw1, wraw2]

/-- The record `readCSV` builds from `wraw1` (file row 2). -/
def wr1 : Record :=
  { id := "A", latitude := 1, longitude := 2, timestamp := 10, originalRow := 2,
    timeDiff := 0, distance := 0, speed := 0, previousRow := 0,
    prevLatitude := 0, prevLongitude := 0, prevTimestamp := 0 }

/-- The record `readCSV` builds from `wraw2` (file row 3). -/
def wr2 : Record :=
  { id := "A", latitude := 3, longitude := 4, timestamp := 25, originalRow := 3,
    timeDiff := 0, distance := 0, speed := 0, previousRow := 0,
    prevLatitude := 0, prevLongitude := 0, prevTimestamp := 0 }

/-- The witness device group. -/
def wgrp : List Record := [wr1, wr2]

/-- The witness group list (one device). -/
def wgroups0 : List (String × List Record) := [("A", wgrp)]

/-- The derived record `processGroups` produces for `wr2` with distance
function `dist0`: elapsed 15 s, distance 7 km, speed `7/(15/3600) = 1680`
km/h, predecessor row 2 and `wr1`'s coordinates and timestamp. -/
def wo : Record :=
  { id := "A", latitude := 3, longitude := 4, timestamp := 25, originalRow := 3,
    timeDiff := 15, distance := 7, speed := 1680, previousRow := 2,
    prevLatitude := 1, prevLongitude := 2, prevTimestamp := 10 }

/-- A mixed list of derived records for the filter witnesses. -/
def wrecs : List Record := [wr1, wo]

/-- First of two same-timestamp records of one device (original row 2). -/
def c3a : Record :=
  { id := "A", latitude := 0, longitude := 0, timestamp := 5, originalRow := 2,
    timeDiff := 0, distance := 0, speed := 0, previousRow := 0,
    prevLatitude := 0, prevLongitude := 0, prevTimestamp := 0 }

/-- Second of two same-timestamp records of one device (original row 3). -/
def c3b : Record :=
  { id := "A", latitude := 0, longitude := 1, timestamp := 5, originalRow := 3,
    timeDiff := 0, distance := 0, speed := 0, previousRow := 0,
    prevLatitude := 0, prevLongitude := 0, prevTimestamp := 0 }

/-- A device group with a timestamp tie, in input order. -/
def c3grp : List Record := [c3a, c3b]

/-- A four-row input with two devices interleaved (A, B, A, B). -/
def c4rows : List RawRow :=
  [ { id := "A", latitude := 0, longitude := 0, timestamp := 0 },
    { id := "B", latitude := 0, longitude := 1, timestamp := 0 },
    { id := "A", latitude := 0, longitude := 2, timestamp := 10 },
    { id := "B", latitude := 0, longitude := 3, timestamp := 10 } ]

/-- A one-data-row input for the row-numbering counterexample. -/
def c9row : RawRow := { id := "A", latitude := 0, longitude := 0, timestamp := 0 }

end GPS

namespace GPS

lemma deriveRest_length (dist : Dist) :
    ∀ (prev : Record) (l : List Record), (deriveRest dist prev l).length = l.length := by
  intro prev l
  induction l generalizing prev with
  | nil => rfl
  | cons c rest ih => simp [deriveRest, ih]

lemma processGroupSorted_length (dist : Dist) :
    ∀ l : List Record, (processGroupSorted dist l).length = l.length := by
  intro l
  cases l with
  | nil => rfl
  | cons first rest => simp [processGroupSorted, deriveRest_length]

lemma processGroup_length (dist : Dist) (group : List Record) :
    (processGroup dist group).length = group.length := by
  rw [processGroup, processGroupSorted_length, sortByTimestamp,
    List.length_insertionSort]

lemma processGroups_shift (dist : Dist) :
    ∀ (l : List (String × List Record)) (acc : List Record),
      l.foldl (fun acc g => acc ++ processGroup dist g.2) acc =
        acc ++ processGroups dist l := by
  intro l
  induction l with
  | nil => intro acc; simp [processGroups]
  | cons g gs ih =>
    intro acc
    have h1 := ih (acc ++ processGroup dist g.2)
    have h2 := ih (processGroup dist g.2)
    simp only [processGroups, List.foldl_cons, List.nil_append] at h1 h2 ⊢
    rw [h1, h2, List.append_assoc]

lemma processGroups_cons (dist : Dist) (g : String × List Record)
    (gs : List (String × List Record)) :
    processGroups dist (g :: gs) =
      processGroup dist g.2 ++ processGroups dist gs := by
  rw [processGroups, List.foldl_cons, List.nil_append, processGroups_shift]

lemma filterStep_append (t : ℚ) (a b : List Record) (r : Record) :
    filterStep t (a ++ b) r = a ++ filterStep t b r := by
  by_cases h1 : r.previousRow ≠ 0 <;> by_cases h2 : t ≤ r.speed <;>
    simp [filterStep, h1, h2]

lemma filterRecords_shift :
    ∀ (l acc : List Record) (t : ℚ),
      l.foldl (filterStep t) acc = acc ++ filterRecords l t := by
  intro l
  induction l with
  | nil => intro acc t; simp [filterRecords]
  | cons r rest ih =>
    intro acc t
    have h1 := ih (filterStep t acc r) t
    have h2 := ih (filterStep t [] r) t
    have ha : filterStep t acc r = acc ++ filterStep t [] r := by
      have := filterStep_append t acc [] r
      simpa using this
    simp only [filterRecords, List.foldl_cons] at h1 h2 ⊢
    rw [h1, h2, ha, List.append_assoc]

lemma filterRecords_cons (r : Record) (l : List Record) (t : ℚ) :
    filterRecords (r :: l) t = filterStep t [] r ++ filterRecords l t := by
  rw [filterRecords, List.foldl_cons, filterRecords_shift]

lemma filterRecords_eq_filter :
    ∀ (l : List Record) (t : ℚ), filterRecords l t = l.filter (keepB t) := by
  intro l
  induction l with
  | nil => intro t; rfl
  | cons r rest ih =>
    intro t
    rw [filterRecords_cons, ih]
    by_cases h1 : r.previousRow = 0 <;> by_cases h2 : t ≤ r.speed <;>
      simp [filterStep, keepB, h1, h2, List.filter_cons]

end GPS

namespace GPS

lemma addToGroups_sum (r : Record) :
    ∀ groups : List (String × List Record),
      ((addToGroups groups r).map (fun g => g.2.length)).sum =
        ((groups.map (fun g => g.2.length)).sum) + 1 := by
  intro groups
  induction groups with
  | nil => simp [addToGroups]
  | cons p rest ih =>
    obtain ⟨k, g⟩ := p
    by_cases h : k = r.id
    · simp [addToGroups, h]
      omega
    · simp [addToGroups, h, ih]
      omega

lemma foldl_addToGroups_sum :
    ∀ (l : List Record) (acc : List (String × List Record)),
      ((l.foldl addToGroups acc).map (fun g => g.2.length)).sum =
        ((acc.map (fun g => g.2.length)).sum) + l.length := by
  intro l
  induction l with
  | nil => intro acc; simp
  | cons r rest ih =>
    intro acc
    rw [List.foldl_cons, ih, addToGroups_sum]
    simp
    omega

lemma groupByID_sum (records : List Record) :
    (((groupByID records).map (fun g => g.2.length)).sum) = records.length := by
  rw [groupByID, foldl_addToGroups_sum]
  simp

lemma processGroups_length (dist : Dist) :
    ∀ groups : List (String × List Record),
      (processGroups dist groups).length =
        ((groups.map (fun g => g.2.length)).sum) := by
  intro groups
  induction groups with
  | nil => rfl
  | cons g gs ih =>
    rw [processGroups_cons, List.length_append, ih, processGroup_length]
    simp

lemma addToGroups_forall {P : Record → Prop} {r : Record} :
    ∀ {groups : List (String × List Record)},
      (∀ p ∈ groups, ∀ x ∈ p.2, P x) → P r →
        ∀ p ∈ addToGroups groups r, ∀ x ∈ p.2, P x := by
  intro groups
  induction groups with
  | nil =>
    intro _ hr p hp x hx
    simp [addToGroups] at hp
    subst hp
    simp at hx
    subst hx
    exact hr
  | cons q rest ih =>
    obtain ⟨k, g⟩ := q
    intro hall hr p hp x hx
    by_cases h : k = r.id
    · simp [addToGroups, h] at hp
      rcases hp with hp | hp
      · subst hp
        simp at hx
        rcases hx with hx | hx
        · exact hall (k, g) (by simp) x hx
        · subst hx; exact hr
      · exact hall p (by simp [hp]) x hx
    · simp [addToGroups, h] at hp
      rcases hp with hp | hp
      · subst hp
        exact hall (k, g) (by simp) x hx
      · exact ih (fun p hp x hx => hall p (by simp [hp]) x hx) hr p hp x hx

lemma foldl_addToGroups_forall {P : Record → Prop} :
    ∀ (l : List Record) (acc : List (String × List Record)),
      (∀ p ∈ acc, ∀ x ∈ p.2, P x) → (∀ x ∈ l, P x) →
        ∀ p ∈ l.foldl addToGroups acc, ∀ x ∈ p.2, P x := by
  intro l
  induction l with
  | nil => intro acc hacc _; simpa using hacc
  | cons r rest ih =>
    intro acc hacc hl
    rw [List.foldl_cons]
    exact ih (addToGroups acc r)
      (addToGroups_forall hacc (hl r (by simp)))
      (fun x hx => hl x (by simp [hx]))

lemma groupByID_forall {P : Record → Prop} (records : List Record)
    (h : ∀ x ∈ records, P x) :
    ∀ p ∈ groupByID records, ∀ x ∈ p.2, P x := by
  rw [groupByID]
  exact foldl_addToGroups_forall records [] (by simp) h

lemma readCSVLoop_length :
    ∀ (rows : List RawRow) (n : ℤ), (readCSVLoop n rows).length = rows.length := by
  intro rows
  induction rows with
  | nil => intro n; rfl
  | cons row rest ih => intro n; simp [readCSVLoop, ih]

lemma readCSVLoop_mem :
    ∀ (rows : List RawRow) (n : ℤ) (r : Record),
      r ∈ readCSVLoop n rows → n < r.originalRow := by
  intro rows
  induction rows with
  | nil => intro n r h; simp [readCSVLoop] at h
  | cons row rest ih =>
    intro n r h
    simp only [readCSVLoop, List.mem_cons] at h
    rcases h with h | h
    · subst h; simp
    · have := ih (n + 1) r h
      omega

lemma readCSV_mem_originalRow (rows : List RawRow) (r : Record)
    (h : r ∈ readCSV rows) : 2 ≤ r.originalRow := by
  have := readCSVLoop_mem rows 1 r h
  omega

lemma readCSVLoop_map :
    ∀ (rows : List RawRow) (n : ℤ),
      originalRows (readCSVLoop n rows) =
        (List.range rows.length).map (fun (i : ℕ) => n + 1 + (i : ℤ)) := by
  intro rows
  induction rows with
  | nil => intro n; rfl
  | cons row rest ih =>
    intro n
    have h := ih (n + 1)
    simp only [originalRows, readCSVLoop, List.map_cons] at h ⊢
    rw [h, List.length_cons, List.range_succ_eq_map, List.map_cons, List.map_map]
    congr 1
    · simp
    · apply List.map_congr_left
      intro i _
      simp only [Function.comp_apply]
      omega

end GPS

namespace GPS

lemma core_deriveStep (dist : Dist) (prev cur : Record) :
    core (deriveStep dist prev cur) = core cur := rfl

lemma core_deriveFirst (r : Record) : core (deriveFirst r) = core r := rfl

lemma deriveRest_map_core (dist : Dist) :
    ∀ (l : List Record) (prev : Record),
      (deriveRest dist prev l).map core = l.map core := by
  intro l
  induction l with
  | nil => intro prev; rfl
  | cons c rest ih =>
    intro prev
    simp only [deriveRest, List.map_cons, ih, core_deriveStep]

lemma processGroup_map_core (dist : Dist) (group : List Record) :
    (processGroup dist group).map core = (sortByTimestamp group).map core := by
  rw [processGroup]
  cases hs : sortByTimestamp group with
  | nil => rfl
  | cons first rest =>
    simp only [processGroupSorted, List.map_cons, deriveRest_map_core,
      core_deriveFirst]

lemma processGroup_core_get? (dist : Dist) (group : List Record) (i : ℕ) :
    ((processGroup dist group)[i]?).map core =
      ((sortByTimestamp group)[i]?).map core := by
  rw [← List.getElem?_map, ← List.getElem?_map, processGroup_map_core]

lemma deriveRest_get? (dist : Dist) :
    ∀ (l : List Record) (prev : Record) (i : ℕ) (c q : Record),
      l[i]? = some c → (prev :: deriveRest dist prev l)[i]? = some q →
      (deriveRest dist prev l)[i]? = some (deriveStep dist q c) := by
  intro l
  induction l with
  | nil => intro prev i c q hc _; simp at hc
  | cons c0 rest ih =>
    intro prev i c q hc hq
    cases i with
    | zero =>
      simp only [List.getElem?_cons_zero, Option.some.injEq] at hc hq
      subst hc
      subst hq
      simp [deriveRest]
    | succ j =>
      simp only [List.getElem?_cons_succ] at hc hq
      simp only [deriveRest, List.getElem?_cons_succ] at hq ⊢
      exact ih (deriveStep dist prev c0) j c q hc hq

lemma mem_sortByTimestamp {group : List Record} {x : Record}
    (h : x ∈ sortByTimestamp group) : x ∈ group := by
  rw [sortByTimestamp] at h
  exact (List.mem_insertionSort _).mp h

lemma processGroup_head_spec (dist : Dist) (group : List Record) (f : Record)
    (hf : (processGroup dist group).head? = some f) :
    ∃ first, f = deriveFirst first ∧ first ∈ group := by
  rw [processGroup] at hf
  cases hs : sortByTimestamp group with
  | nil => rw [hs] at hf; simp [processGroupSorted] at hf
  | cons first rest =>
    rw [hs] at hf
    simp only [processGroupSorted, List.head?_cons, Option.some.injEq] at hf
    refine ⟨first, hf.symm, ?_⟩
    have hmem : first ∈ sortByTimestamp group := by rw [hs]; simp
    exact mem_sortByTimestamp hmem

lemma processGroup_succ_spec (dist : Dist) (group : List Record) (i : ℕ)
    (o : Record) (ho : (processGroup dist group)[i + 1]? = some o) :
    ∃ p c, (sortByTimestamp group)[i]? = some p ∧
      (sortByTimestamp group)[i + 1]? = some c ∧
      p ∈ group ∧ c ∈ group ∧
      o.timeDiff = c.timestamp - p.timestamp ∧
      o.previousRow = p.originalRow ∧
      o.prevLatitude = p.latitude ∧
      o.prevLongitude = p.longitude ∧
      o.prevTimestamp = p.timestamp := by
  cases hs : sortByTimestamp group with
  | nil =>
    rw [processGroup, hs] at ho
    simp [processGroupSorted] at ho
  | cons first rest =>
    have ho' := ho
    rw [processGroup, hs] at ho'
    simp only [processGroupSorted, List.getElem?_cons_succ] at ho'
    have hlen : i < rest.length := by
      obtain ⟨hb, -⟩ := List.getElem?_eq_some.mp ho'
      rwa [deriveRest_length] at hb
    have hlen' : i < (first :: rest).length := by simp; omega
    obtain ⟨c, hc⟩ : ∃ c, rest[i]? = some c :=
      ⟨rest.get ⟨i, hlen⟩, by rw [List.getElem?_eq_getElem hlen]; rfl⟩
    obtain ⟨p, hp⟩ : ∃ p, (first :: rest)[i]? = some p :=
      ⟨(first :: rest).get ⟨i, hlen'⟩, by rw [List.getElem?_eq_getElem hlen']; rfl⟩
    have hq0 : ((processGroup dist group)[i]?).map core = some (core p) := by
      rw [processGroup_core_get?, hs, hp, Option.map_some']
    obtain ⟨q, hq, hqcore⟩ := Option.map_eq_some'.mp hq0
    rw [processGroup, hs] at hq
    simp only [processGroupSorted] at hq
    have hd := deriveRest_get? dist rest (deriveFirst first) i c q hc hq
    rw [ho'] at hd
    have ho2 : o = deriveStep dist q c := Option.some.inj hd
    have hqc : q.id = p.id ∧ q.latitude = p.latitude ∧ q.longitude = p.longitude ∧
        q.timestamp = p.timestamp ∧ q.originalRow = p.originalRow := by
      simpa [core, Prod.ext_iff] using hqcore
    obtain ⟨-, hqlat, hqlon, hqts, hqrow⟩ := hqc
    have hpmem : p ∈ group := by
      apply mem_sortByTimestamp
      rw [hs]
      exact List.getElem?_mem hp
    have hcmem : c ∈ group := by
      apply mem_sortByTimestamp
      rw [hs]
      exact List.getElem?_mem (show (first :: rest)[i + 1]? = some c by
        simpa [List.getElem?_cons_succ] using hc)
    refine ⟨p, c, hp, by simpa using hc,
      hpmem, hcmem, ?_, ?_, ?_, ?_, ?_⟩ <;>
      simp [ho2, deriveStep, hqlat, hqlon, hqts, hqrow]

end GPS

namespace GPS

lemma deriveRest_mem (dist : Dist) :
    ∀ (l : List Record) (prev r : Record),
      r ∈ deriveRest dist prev l → ∃ q c, r = deriveStep dist q c := by
  intro l
  induction l with
  | nil => intro prev r h; simp [deriveRest] at h
  | cons c0 rest ih =>
    intro prev r h
    simp only [deriveRest, List.mem_cons] at h
    rcases h with h | h
    · exact ⟨prev, c0, h⟩
    · exact ih (deriveStep dist prev c0) r h

lemma processGroup_mem (dist : Dist) (group : List Record) (r : Record)
    (h : r ∈ processGroup dist group) :
    (∃ x, r = deriveFirst x) ∨ ∃ q c, r = deriveStep dist q c := by
  rw [processGroup] at h
  cases hs : sortByTimestamp group with
  | nil => rw [hs] at h; simp [processGroupSorted] at h
  | cons first rest =>
    rw [hs] at h
    simp only [processGroupSorted, List.mem_cons] at h
    rcases h with h | h
    · exact Or.inl ⟨first, h⟩
    · exact Or.inr (deriveRest_mem dist rest (deriveFirst first) r h)

lemma processGroups_mem (dist : Dist) :
    ∀ (groups : List (String × List Record)) (r : Record),
      r ∈ processGroups dist groups →
        (∃ x, r = deriveFirst x) ∨ ∃ q c, r = deriveStep dist q c := by
  intro groups
  induction groups with
  | nil => intro r h; simp [processGroups] at h
  | cons g gs ih =>
    intro r h
    rw [processGroups_cons, List.mem_append] at h
    rcases h with h | h
    · exact processGroup_mem dist g.2 r h
    · exact ih r h

lemma speed_shape (dist : Dist) (groups : List (String × List Record))
    (r : Record) (h : r ∈ processGroups dist groups) :
    r.speed = if 0 < r.timeDiff then r.distance / (r.timeDiff / 3600) else 0 := by
  rcases processGroups_mem dist groups r h with ⟨x, rfl⟩ | ⟨q, c, rfl⟩
  · simp [deriveFirst]
  · simp [deriveStep]

lemma speed_nonneg (dist : Dist) (groups : List (String × List Record))
    (hd : ∀ a b c d, 0 ≤ dist a b c d) (r : Record)
    (h : r ∈ processGroups dist groups) : 0 ≤ r.speed := by
  rcases processGroups_mem dist groups r h with ⟨x, rfl⟩ | ⟨q, c, rfl⟩
  · simp [deriveFirst]
  · show (0 : ℚ) ≤ if 0 < c.timestamp - q.timestamp then
      dist q.latitude q.longitude c.latitude c.longitude /
        ((c.timestamp - q.timestamp) / 3600) else 0
    by_cases hlt : 0 < c.timestamp - q.timestamp
    · rw [if_pos hlt]
      apply div_nonneg (hd _ _ _ _)
      linarith
    · rw [if_neg hlt]

end GPS

namespace GPS

set_option maxRecDepth 100000

/-- C1: Kinematics Derivation — in a device group sorted by timestamp,
the head of the derived output has predecessor position 0, distance,
elapsed and speed 0, predecessor latitude/longitude 0 and predecessor
timestamp left at the zero instant; at every later index the derived
record's elapsed time is the timestamp difference to the chronologically
preceding record, its predecessor position is that record's original
sequence position, and its predecessor latitude/longitude/timestamp are
copied verbatim from that record. -/
theorem kinematics_derivation (dist : Dist) (group : List Record) (i : ℕ)
    (f p c o : Record)
    (hz : ∀ r ∈ group, r.prevTimestamp = 0)
    (hf : (processGroup dist group).head? = some f)
    (hp : (sortByTimestamp group)[i]? = some p)
    (hc : (sortByTimestamp group)[i + 1]? = some c)
    (ho : (processGroup dist group)[i + 1]? = some o) :
    (f.previousRow = 0 ∧ f.timeDiff = 0 ∧ f.distance = 0 ∧ f.speed = 0 ∧
      f.prevLatitude = 0 ∧ f.prevLongitude = 0 ∧ f.prevTimestamp = 0) ∧
    (o.timeDiff = c.timestamp - p.timestamp ∧ o.previousRow = p.originalRow ∧
      o.prevLatitude = p.latitude ∧ o.prevLongitude = p.longitude ∧
      o.prevTimestamp = p.timestamp) := by
  obtain ⟨first, hfe, hfmem⟩ := processGroup_head_spec dist group f hf
  obtain ⟨p', c', hp', hc', hpmem, -, ht, hrow, hla, hlo, hts⟩ :=
    processGroup_succ_spec dist group i o ho
  have hpp : p' = p := by rw [hp'] at hp; exact Option.some.inj hp
  have hcc : c' = c := by rw [hc'] at hc; exact Option.some.inj hc
  subst hpp
  subst hcc
  constructor
  · subst hfe
    refine ⟨rfl, rfl, rfl, rfl, rfl, rfl, ?_⟩
    show first.prevTimestamp = 0
    exact hz first hfmem
  · exact ⟨ht, hrow, hla, hlo, hts⟩

/-- Witness for C1 at a concrete two-record group. -/
theorem kinematics_derivation_witness :
    (wr1.previousRow = 0 ∧ wr1.timeDiff = 0 ∧ wr1.distance = 0 ∧ wr1.speed = 0 ∧
      wr1.prevLatitude = 0 ∧ wr1.prevLongitude = 0 ∧ wr1.prevTimestamp = 0) ∧
    (wo.timeDiff = wr2.timestamp - wr1.timestamp ∧
      wo.previousRow = wr1.originalRow ∧
      wo.prevLatitude = wr1.latitude ∧ wo.prevLongitude = wr1.longitude ∧
      wo.prevTimestamp = wr1.timestamp) :=
  kinematics_derivation dist0 wgrp 0 wr1 wr1 wr2 wo (by with_unfolding_all decide)
    (by with_unfolding_all rfl) (by with_unfolding_all rfl)
    (by with_unfolding_all rfl) (by with_unfolding_all rfl)

/-- C2: Motion Filter — the output is exactly the order-preserving
subsequence of records with predecessor position ≠ 0 and speed ≥ the
threshold; with a non-positive threshold, on derived records (whose
speeds are nonnegative whenever the distance function is), exactly the
group-initial records are removed. -/
theorem motion_filter (dist : Dist) (groups : List (String × List Record))
    (records : List Record) (t t' : ℚ) (ht' : t' ≤ 0)
    (hd : ∀ a b c d, 0 ≤ dist a b c d) :
    filterRecords records t = records.filter (keepB t) ∧
    filterRecords (processGroups dist groups) t' =
      (processGroups dist groups).filter hasPredB := by
  refine ⟨filterRecords_eq_filter records t, ?_⟩
  rw [filterRecords_eq_filter]
  apply List.filter_congr
  intro r hr
  have hsn := speed_nonneg dist groups hd r hr
  have hts : t' ≤ r.speed := le_trans ht' hsn
  simp [keepB, hasPredB, hts]

/-- Witness for C2 at a concrete record list and thresholds 100 and 0. -/
theorem motion_filter_witness :
    filterRecords wrecs 100 = wrecs.filter (keepB 100) ∧
    filterRecords (processGroups dist0 wgroups0) 0 =
      (processGroups dist0 wgroups0).filter hasPredB :=
  motion_filter dist0 wgroups0 wrecs 100 0 (by decide)
    (by intro a b c d; norm_num [dist0])

/-- C5: Speed-zero policy and guarded division — every derived record's
speed is 0 when its elapsed time is not positive, and is
distance / (elapsed/3600) when the elapsed time is positive (the
division happens only under the positivity guard). -/
theorem speed_policy (dist : Dist) (groups : List (String × List Record))
    (r : Record) (hr : r ∈ processGroups dist groups) :
    r.speed = if 0 < r.timeDiff then r.distance / (r.timeDiff / 3600) else 0 :=
  speed_shape dist groups r hr

/-- Witness for C5 at a concrete derived record. -/
theorem speed_policy_witness :
    wo.speed = if 0 < wo.timeDiff then wo.distance / (wo.timeDiff / 3600) else 0 :=
  speed_policy dist0 wgroups0 wo (by with_unfolding_all decide)

/-- C6: Length law — derivation produces exactly one derived record per
raw record (per group and in total), and filtering only removes records,
so len(filtered) ≤ len(derived) = len(raw). -/
theorem length_law (dist : Dist) (rows : List RawRow) (t : ℚ) (g : List Record) :
    (readCSV rows).length = rows.length ∧
    (processGroup dist g).length = g.length ∧
    (processGroups dist (groupByID (readCSV rows))).length =
      (readCSV rows).length ∧
    (filterRecords (processGroups dist (groupByID (readCSV rows))) t).length ≤
      (processGroups dist (groupByID (readCSV rows))).length := by
  refine ⟨readCSVLoop_length rows 1, processGroup_length dist g, ?_, ?_⟩
  · rw [processGroups_length, groupByID_sum]
  · rw [filterRecords_eq_filter]
    exact List.length_filter_le _ _

/-- C7: Threshold monotonicity — every record surviving the filter at
the larger threshold also survives at the smaller one. -/
theorem threshold_monotone (records : List Record) (t1 t2 : ℚ) (r : Record)
    (h12 : t1 < t2) (hr : r ∈ filterRecords records t2) :
    r ∈ filterRecords records t1 := by
  rw [filterRecords_eq_filter] at hr ⊢
  rw [List.mem_filter] at hr ⊢
  refine ⟨hr.1, ?_⟩
  have h2 := hr.2
  simp only [keepB, Bool.and_eq_true, decide_eq_true_eq] at h2 ⊢
  exact ⟨h2.1, le_trans (le_of_lt h12) h2.2⟩

/-- Witness for C7 at thresholds 1 < 2 on a concrete record list. -/
theorem threshold_monotone_witness : wo ∈ filterRecords wrecs 1 :=
  threshold_monotone wrecs 1 2 wo (by norm_num) (by with_unfolding_all decide)

/-- C9 counterexample: on a one-data-row input the reader assigns the
first data row original position 2 (the file row number, counting the
header as row 1), not position 1 as the claim states. -/
theorem first_data_row_position_is_two :
    originalRows (readCSV [c9row]) = [2] ∧ ([2] : List ℤ) ≠ [1] := by
  constructor
  · with_unfolding_all rfl
  · decide

/-- C9 amended: `readCSV` assigns unique, strictly increasing original
positions in file order, namely the file row numbers with the header
counted as row 1, so the i-th data row (0-based) receives position
i + 2 and the first data row receives 2, not 1. -/
theorem readCSV_positions (rows : List RawRow) :
    originalRows (readCSV rows) =
      (List.range rows.length).map (fun (i : ℕ) => 2 + (i : ℤ)) ∧
    List.Pairwise (fun a b => a < b) (originalRows (readCSV rows)) := by
  have he : originalRows (readCSV rows) =
      (List.range rows.length).map (fun (i : ℕ) => 2 + (i : ℤ)) := by
    rw [readCSV, readCSVLoop_map]
    apply List.map_congr_left
    intro i _
    omega
  refine ⟨he, ?_⟩
  rw [he]
  exact (List.pairwise_lt_range rows.length).map
    (fun (i : ℕ) => 2 + (i : ℤ)) (fun a b hab => by dsimp only; omega)

/-- C10: Sentinel non-collision — every record `readCSV` produces has
original row number at least 2 (hence never 0), and a derived record of
a device group of the read input has predecessor position 0 exactly when
it is the chronologically first record of its group. -/
theorem sentinel_non_collision (dist : Dist) (rows : List RawRow) (k : String)
    (g : List Record) (i : ℕ) (r s : Record)
    (hg : (k, g) ∈ groupByID (readCSV rows))
    (hs : s ∈ readCSV rows)
    (hr : (processGroup dist g)[i]? = some r) :
    2 ≤ s.originalRow ∧ s.originalRow ≠ 0 ∧ (r.previousRow = 0 ↔ i = 0) := by
  have hall : ∀ p ∈ groupByID (readCSV rows), ∀ x ∈ p.2, 2 ≤ x.originalRow :=
    groupByID_forall (readCSV rows) (fun x hx => readCSV_mem_originalRow rows x hx)
  have hgmem : ∀ x ∈ g, 2 ≤ x.originalRow := hall (k, g) hg
  have hs2 : 2 ≤ s.originalRow := readCSV_mem_originalRow rows s hs
  refine ⟨hs2, by omega, ?_⟩
  cases i with
  | zero =>
    have hh : (processGroup dist g).head? = some r := by
      cases hpg : processGroup dist g with
      | nil => rw [hpg] at hr; simp at hr
      | cons a l =>
        rw [hpg] at hr
        simp only [List.getElem?_cons_zero, Option.some.injEq] at hr
        rw [List.head?_cons, hr]
    obtain ⟨first, hre, -⟩ := processGroup_head_spec dist g r hh
    subst hre
    simp [deriveFirst]
  | succ j =>
    obtain ⟨p, c, -, -, hpmem, -, -, hrow, -, -, -⟩ :=
      processGroup_succ_spec dist g j r hr
    have hp2 : 2 ≤ p.originalRow := hgmem p hpmem
    constructor
    · intro h0
      rw [hrow] at h0
      omega
    · intro h
      omega

/-- Witness for C10 on a concrete two-row input. -/
theorem sentinel_non_collision_witness :
    2 ≤ wr1.originalRow ∧ wr1.originalRow ≠ 0 ∧ (wo.previousRow = 0 ↔ 1 = 0) :=
  sentinel_non_collision dist0 wrows "A" wgrp 1 wo wr1
    (by with_unfolding_all decide) (by with_unfolding_all decide)
    (by with_unfolding_all rfl)

end GPS

namespace GPS

set_option maxRecDepth 100000

/-- C3 (code bug support): the contract the source actually requests —
`sort.Slice` guarantees only a sorted permutation, not stability — does
not determine the order of equal-timestamp records: for the concrete
tied group `c3grp`, the stable order `[c3a, c3b]` required by the claim
and the tie-reversed order `[c3b, c3a]` are both sorted permutations of
the group, and they differ. -/
theorem sortSlice_contract_underdetermined :
    sortedByTs (sortByTimestamp c3grp) = true ∧
    sortByTimestamp c3grp = [c3a, c3b] ∧
    sortedByTs [c3b, c3a] = true ∧
    ([c3b, c3a] : List Record).Perm c3grp ∧
    [c3b, c3a] ≠ sortByTimestamp c3grp := by
  refine ⟨?_, ?_, ?_, ?_, ?_⟩
  · with_unfolding_all rfl
  · with_unfolding_all rfl
  · with_unfolding_all rfl
  · exact List.Perm.swap c3a c3b []
  · with_unfolding_all decide

/-- C4 (code bug support): two iteration orders over the same device
groups — both permutations of the map contents built from the concrete
four-row input `c4rows` — produce different flattened output sequences,
so the flattened output is not a function of the raw input alone; Go's
map iteration order is randomized per run. -/
theorem group_iteration_order_changes_output :
    ((groupByID (readCSV c4rows)).reverse).Perm (groupByID (readCSV c4rows)) ∧
    processGroups dist0 ((groupByID (readCSV c4rows)).reverse) ≠
      processGroups dist0 (groupByID (readCSV c4rows)) := by
  constructor
  · exact List.reverse_perm _
  · with_unfolding_all decide

lemma hav_a_symm (a b c d : ℝ) : hav_a c d a b = hav_a a b c d := by
  rw [hav_a, hav_a]
  have e1 : (a - c) * (Real.pi / 180) / 2 = -((c - a) * (Real.pi / 180) / 2) := by
    ring
  have e2 : (b - d) * (Real.pi / 180) / 2 = -((d - b) * (Real.pi / 180) / 2) := by
    ring
  rw [e1, e2, Real.sin_neg, Real.sin_neg]
  ring

lemma hav_a_self (a b : ℝ) : hav_a a b a b = 0 := by
  rw [hav_a]
  simp

/-- C8: Geodesic Distance Function — the spec-modelled haversine
distance with R = 6371 km is symmetric, returns 0 for identical points,
and maps (0,0)–(0,1) to within 0.5 km of 111.19 km. -/
theorem haversine_properties :
    (∀ a b c d : ℝ, haversineDistance a b c d = haversineDistance c d a b) ∧
    (∀ a b : ℝ, haversineDistance a b a b = 0) ∧
    |haversineDistance 0 0 0 1 - 111.19| ≤ 0.5 := by
  have hπ := Real.pi_pos
  refine ⟨?_, ?_, ?_⟩
  · intro a b c d
    rw [haversineDistance, haversineDistance, hav_a_symm]
  · intro a b
    rw [haversineDistance, hav_a_self, Real.sqrt_zero, sub_zero, Real.sqrt_one,
      atan2, if_pos (by norm_num : (0:ℝ) < 1)]
    norm_num [Real.arctan_zero]
  · have h0 : (0 - 0 : ℝ) * (Real.pi / 180) / 2 = 0 := by ring
    have hs : (1 - 0 : ℝ) * (Real.pi / 180) / 2 = Real.pi / 360 := by ring
    have ha : hav_a 0 0 0 1 = Real.sin (Real.pi / 360) ^ 2 := by
      rw [hav_a, h0, hs]
      simp [Real.sin_zero, Real.cos_zero, zero_mul]
    have hx2 : Real.pi / 360 < Real.pi / 2 := by linarith
    have hsin : 0 ≤ Real.sin (Real.pi / 360) :=
      Real.sin_nonneg_of_nonneg_of_le_pi (by linarith) (by linarith)
    have hcos : 0 < Real.cos (Real.pi / 360) :=
      Real.cos_pos_of_mem_Ioo ⟨by linarith, hx2⟩
    have h1 : Real.sqrt (Real.sin (Real.pi / 360) ^ 2) = Real.sin (Real.pi / 360) :=
      Real.sqrt_sq hsin
    have h2 : 1 - Real.sin (Real.pi / 360) ^ 2 = Real.cos (Real.pi / 360) ^ 2 := by
      have := Real.sin_sq_add_cos_sq (Real.pi / 360)
      linarith
    have h3 : Real.sqrt (Real.cos (Real.pi / 360) ^ 2) = Real.cos (Real.pi / 360) :=
      Real.sqrt_sq (le_of_lt hcos)
    have h4 : atan2 (Real.sin (Real.pi / 360)) (Real.cos (Real.pi / 360)) =
        Real.pi / 360 := by
      rw [atan2, if_pos hcos, ← Real.tan_eq_sin_div_cos,
        Real.arctan_tan (by linarith) hx2]
    have hD : haversineDistance 0 0 0 1 = 2 * 6371 * (Real.pi / 360) := by
      rw [haversineDistance, ha, h1, h2, h3, h4]
    rw [hD, abs_le]
    have hlo := Real.pi_gt_d2
    have hhi := Real.pi_lt_d2
    norm_num at hlo hhi ⊢
    constructor <;> linarith

end GPS
